import Mathlib

/-!
A verification development for the poker-bot decision engine of the
Digital Poker Table repository (`bot.js`).  The JavaScript source is
shallowly embedded: numbers become exact rationals `ℚ`, the two special
divisions the source can perform on degenerate inputs (`needToCall /
(pot + needToCall)` and `needToCall / player.chips`) are modelled with an
explicit JavaScript-number type `JNum` carrying infinities and NaN, the
DOM read of the community cards becomes an explicit field of the decision
context, and the external collaborators (pokersolver's ranked-hand
evaluator, `Math.random`, `Math.exp`) become oracle fields of an `Env`
structure threaded through the engine.  `Math.random()` calls are
modelled by an index into the oracle stream `Env.rand`; the index is
threaded in exactly the order the source draws randoms.
-/

/-- A two-character card code such as "AC": rank character and suit character. -/
structure Code where
  r : Char
  s : Char
deriving DecidableEq, Repr

/-- The engine's output `{action, amount?}`. -/
inductive Decision where
  | fold : Decision
  | check : Decision
  | call (amount : ℚ) : Decision
  | raise (amount : ℚ) : Decision
deriving DecidableEq, Repr

/-- The per-seat `stats` record read (never written) by the engine. -/
structure Stats where
  hands : ℚ
  folds : ℚ
  vpip : ℚ
  calls : ℚ
  aggressiveActs : ℚ
deriving DecidableEq, Repr

/-- A seat as the engine sees it.  JavaScript identifies players by object
identity; the embedding identifies the acting player by its index in
`Ctx.players`, so seats need no identity field. -/
structure Player where
  chips : ℚ
  roundBet : ℚ
  folded : Bool
  allIn : Bool
  dealer : Bool
  bigBlind : Bool
  card0 : Code
  card1 : Code
  stats : Stats
deriving DecidableEq, Repr

instance : Inhabited Player :=
  ⟨{ chips := 0, roundBet := 0, folded := false, allIn := false, dealer := false,
     bigBlind := false, card0 := ⟨'2', 'C'⟩, card1 := ⟨'2', 'C'⟩,
     stats := ⟨0, 0, 0, 0, 0⟩ }⟩

/-- The decision context snapshot.  `community` models the DOM read of
`#community-cards` that the source performs inside `chooseBotAction`. -/
structure Ctx where
  currentBet : ℚ
  pot : ℚ
  smallBlind : ℚ
  bigBlind : ℚ
  lastRaise : ℚ
  raisesThisRound : ℕ
  currentPhaseIndex : ℕ
  players : List Player
  community : List Code
deriving DecidableEq, Repr

/-- The engine's external collaborators: the uniform randomness stream
(`rand k` is the value of the k-th `Math.random()` call of this decision),
`Math.exp`, and pokersolver's ranked-hand evaluator (`Hand.solve`): the
ordinal rank used as postflop strength, the category name, and the rank of
the first card of the resolved hand (`hand.cards[0].rank`). -/
structure Env where
  rand : ℕ → ℚ
  exp : ℚ → ℚ
  solveRank : List Code → ℚ
  solveName : List Code → String
  solvePairRank : List Code → ℕ

/- ===========================
   Configuration constants (bot.js)
=========================== -/

def BOT_ACTION_DELAY : ℕ := 1500
def MAX_RAISES_PER_ROUND : ℕ := 3
def STRENGTH_TIE_DELTA : ℚ := 25/100
def ODDS_TIE_DELTA : ℚ := 2/100
def OPPONENT_THRESHOLD : ℚ := 3
def AGG_FACTOR : ℚ := 1/10
def THRESHOLD_FACTOR : ℚ := 3/10
def MIN_HANDS_FOR_WEIGHT : ℚ := 10
def WEIGHT_GROWTH : ℚ := 10
def ALLIN_HAND_PREFLOP : ℚ := 85/100
def ALLIN_HAND_POSTFLOP : ℚ := 5/10

/- ===========================
   JavaScript-number modelling for the two unguarded divisions
=========================== -/

/-- The value of a JavaScript division whose denominator may be zero:
finite, +Infinity, -Infinity or NaN. -/
inductive JNum where
  | fin (q : ℚ) : JNum
  | posInf : JNum
  | negInf : JNum
  | nan : JNum
deriving DecidableEq, Repr

/-- JavaScript `n / d` over real (rational) operands. -/
def jdiv (n d : ℚ) : JNum :=
  if d = 0 then (if n > 0 then .posInf else if n < 0 then .negInf else .nan)
  else .fin (n / d)

/-- JavaScript `a <= b` with `a` a possibly non-finite number: any
comparison against NaN is false. -/
def jleq (a : JNum) (b : ℚ) : Prop :=
  match a with
  | .fin q => q ≤ b
  | .posInf => False
  | .negInf => True
  | .nan => False

instance (a : JNum) (b : ℚ) : Decidable (jleq a b) := by
  unfold jleq
  cases a <;> infer_instance

/-- JavaScript `b >= a` with `a` a possibly non-finite number. -/
def jgeq (b : ℚ) (a : JNum) : Prop :=
  match a with
  | .fin q => q ≤ b
  | .posInf => False
  | .negInf => True
  | .nan => False

instance (b : ℚ) (a : JNum) : Decidable (jgeq b a) := by
  unfold jgeq
  cases a <;> infer_instance

/-- JavaScript `Math.abs(x - a) <= d` with `a` possibly non-finite. -/
def jabsSubLe (x : ℚ) (a : JNum) (d : ℚ) : Prop :=
  match a with
  | .fin q => |x - q| ≤ d
  | _ => False

instance (x : ℚ) (a : JNum) (d : ℚ) : Decidable (jabsSubLe x a d) := by
  unfold jabsSubLe
  cases a <;> infer_instance

/- ===========================
   Numeric and stats utilities (bot.js)
=========================== -/

/-- `Math.round(x)`: JavaScript rounds half toward +Infinity. -/
def jround (x : ℚ) : ℤ := ⌊x + 1/2⌋

/-- `roundTo10(x)`: round to the nearest multiple of 10. -/
def roundTo10 (x : ℚ) : ℚ := (jround (x / 10) : ℚ) * 10

/-- `calcFoldRate(p)`. -/
def calcFoldRate (p : Player) : ℚ :=
  if p.stats.hands > 0 then p.stats.folds / p.stats.hands else 0

/-- `avgFoldRate(opponents)`. -/
def avgFoldRate (opponents : List Player) : ℚ :=
  if opponents.length = 0 then 0
  else (opponents.map calcFoldRate).sum / opponents.length

/- ===========================
   Card ranks
=========================== -/

/-- The rank-character table of `evaluateBoardTexture` ("2" ↦ 2 … "A" ↦ 14);
characters outside the table map to 0 (the JavaScript lookup would be
undefined there — theorems about boards only use card codes). -/
def rankMapChar (c : Char) : ℕ :=
  if c = '2' then 2 else if c = '3' then 3 else if c = '4' then 4
  else if c = '5' then 5 else if c = '6' then 6 else if c = '7' then 7
  else if c = '8' then 8 else if c = '9' then 9 else if c = 'T' then 10
  else if c = 'J' then 11 else if c = 'Q' then 12 else if c = 'K' then 13
  else if c = 'A' then 14 else 0

/-- Modelled from the spec: pokersolver's `new Card(code).rank` is external
to the repository (the evaluator is a consumed capability); per the spec's
board-context section the ace counts high as rank 14, so the rank of a card
code is the standard 2…14 value of its rank character. -/
def codeRank (c : Code) : ℕ := rankMapChar c.r

/-- A valid rank character. -/
def validRankChar (c : Char) : Prop :=
  c ∈ ['2', '3', '4', '5', '6', '7', '8', '9', 'T', 'J', 'Q', 'K', 'A']

instance (c : Char) : Decidable (validRankChar c) := by
  unfold validRankChar
  infer_instance

/- ===========================
   Post-flop board evaluation (bot.js)
=========================== -/

/-- `isPocketPair(hole)`: both hole cards share a rank. -/
def isPocketPair (h0 h1 : Code) : Bool := codeRank h0 == codeRank h1

/-- `analyzeHandContext(hole, board)`: top-pair and overpair flags.  The
resolved hand's category name and its first card's rank come from the
external evaluator (`Env.solveName`, `Env.solvePairRank`). -/
def analyzeHandContext (env : Env) (h0 h1 : Code) (board : List Code) :
    Bool × Bool :=
  let name := env.solveName ([h0, h1] ++ board)
  let boardRanks := board.map codeRank
  let highestBoard := boardRanks.foldr max 0
  let pocketPair := isPocketPair h0 h1
  if name = "Pair" then
    let pairRank := env.solvePairRank ([h0, h1] ++ board)
    (pairRank == highestBoard, pocketPair && decide (pairRank > highestBoard))
  else (false, false)

/-- The draw flags of `analyzeDrawPotential` (the `outs` field of the source
is initialised to 0 and never written). -/
structure Draws where
  flushDraw : Bool
  straightDraw : Bool
  outs : ℚ
deriving DecidableEq, Repr

/-- The number of ranks of the 5-rank window starting at `st` present in
`uniq` (`seq.filter((r) => unique.includes(r)).length`). -/
def windowHits (uniq : List ℕ) (st : ℕ) : ℕ :=
  ((List.range' st 5).filter (fun r => uniq.contains r)).length

/-- Sorting of `[...new Set(ranks)].sort((a, b) => a - b)`. -/
def sortNat (l : List ℕ) : List ℕ := List.insertionSort (· ≤ ·) l

/-- `analyzeDrawPotential(hole, board)`.  The straight-draw loop walks the
windows `[st, st+4]` for `st = 1 … 10` in order and stops at the first
window with 5 or with 4 present ranks, exactly as the source's `break`. -/
def analyzeDrawPotential (hole board : List Code) : Draws :=
  let allCards := hole ++ board
  let suitChars := (allCards.map (·.s)).dedup
  let suitCounts := suitChars.map (fun sc => (allCards.filter (fun c => c.s = sc)).length)
  let hasFlush := suitCounts.any (fun c => c ≥ 5)
  let flushDraw := if hasFlush then false else suitCounts.any (fun c => c == 4)
  let ranks0 := allCards.map codeRank
  let ranks := if ranks0.contains 14 then ranks0 ++ [1] else ranks0
  let uniq := sortNat ranks.dedup
  let straightDraw :=
    match (List.range' 1 10).find?
        (fun st => (windowHits uniq st == 5) || (windowHits uniq st == 4)) with
    | some st => windowHits uniq st == 4
    | none => false
  ⟨flushDraw, straightDraw, 0⟩

/-- The per-rank-character counts of `evaluateBoardTexture` (`rankCounts`). -/
def boardRankCounts (board : List Code) : List ℕ :=
  ((board.map (·.r)).dedup).map (fun rc => (board.filter (fun c => c.r = rc)).length)

/-- The per-suit-character counts of `evaluateBoardTexture` (`suitCounts`). -/
def boardSuitCounts (board : List Code) : List ℕ :=
  ((board.map (·.s)).dedup).map (fun sc => (board.filter (fun c => c.s = sc)).length)

/-- The pairing sub-score of `evaluateBoardTexture`. -/
def boardPairRisk (board : List Code) : ℚ :=
  let maxRankCount : ℕ := (boardRankCounts board).foldr max 0
  if maxRankCount > 1 then ((maxRankCount : ℚ) - 1) / ((board.length : ℚ) - 1) else 0

/-- The suitedness sub-score of `evaluateBoardTexture`. -/
def boardSuitRisk (board : List Code) : ℚ :=
  let maxSuitCount : ℕ := (boardSuitCounts board).foldr max 0
  ((maxSuitCount : ℚ) - 1) / ((board.length : ℚ) - 1)

/-- The run-length scan of `evaluateBoardTexture`: `cur` is the current
consecutive run, `best` the longest seen. -/
def maxConsecutiveAux : ℕ → ℕ → ℕ → List ℕ → ℕ
  | _, _, best, [] => best
  | prev, cur, best, x :: xs =>
      let cur2 := if x = prev + 1 then cur + 1 else 1
      maxConsecutiveAux x cur2 (max best cur2) xs

/-- The longest consecutive run of the (sorted, distinct) rank list. -/
def maxConsecutive : List ℕ → ℕ
  | [] => 1
  | x :: xs => maxConsecutiveAux x 1 1 xs

/-- The connectedness sub-score of `evaluateBoardTexture` (including its
wheel handling: the ace's rank 14 also pushes a rank 1). -/
def boardConnRisk (board : List Code) : ℚ :=
  let ranks := board.map (fun c => rankMapChar c.r)
  let ranksForStraight := if ranks.contains 14 then ranks ++ [1] else ranks
  let uniq := sortNat ranksForStraight.dedup
  let maxConsec := maxConsecutive uniq
  if maxConsec ≥ 3 then max 0 (((maxConsec : ℚ) - 2) / ((board.length : ℚ) - 2))
  else 0

/-- `evaluateBoardTexture(board)`: 0 for boards of fewer than 3 cards, else
the clamped average of the three sub-scores. -/
def evaluateBoardTexture (board : List Code) : ℚ :=
  if board.length < 3 then 0
  else max 0 (min 1 ((boardConnRisk board + boardSuitRisk board + boardPairRisk board) / 3))

/- ===========================
   Preflop hand evaluation (bot.js)
=========================== -/

/-- `order.indexOf(r)` over `order = "23456789TJQKA"` (−1 when absent). -/
def orderIndexOf (c : Char) : ℤ :=
  if c = '2' then 0 else if c = '3' then 1 else if c = '4' then 2
  else if c = '5' then 3 else if c = '6' then 4 else if c = '7' then 5
  else if c = '8' then 6 else if c = '9' then 7 else if c = 'T' then 8
  else if c = 'J' then 9 else if c = 'Q' then 10 else if c = 'K' then 11
  else if c = 'A' then 12 else -1

/-- The `base` table of `preflopHandScore`; characters outside the table map
to 0 (the JavaScript lookup would be undefined — the scoring theorems only
use valid rank characters). -/
def baseScore (c : Char) : ℚ :=
  if c = 'A' then 10 else if c = 'K' then 8 else if c = 'Q' then 7
  else if c = 'J' then 6 else if c = 'T' then 5 else if c = '9' then 45/10
  else if c = '8' then 4 else if c = '7' then 35/10 else if c = '6' then 3
  else if c = '5' then 25/10 else if c = '4' then 2 else if c = '3' then 15/10
  else if c = '2' then 1 else 0

/-- The body of `preflopHandScore` after its normalising swap: `r1` is the
higher-indexed rank character. -/
def chenBody (r1 r2 s1 s2 : Char) : ℚ :=
  let i1 := orderIndexOf r1
  let i2 := orderIndexOf r2
  let score0 := baseScore r1
  let score1 := if r1 = r2 then (if score0 * 2 < 5 then 5 else score0 * 2) else score0
  let score2 := if s1 = s2 then score1 + 2 else score1
  let gap : ℤ := i1 - i2 - 1
  let score3 :=
    if gap = 1 then score2 - 1
    else if gap = 2 then score2 - 2
    else if gap = 3 then score2 - 4
    else if gap ≥ 4 then score2 - 5
    else score2
  let score4 := if gap ≤ 1 ∧ i1 < orderIndexOf 'Q' then score3 + 1 else score3
  let score5 := if score4 < 0 then 0 else score4
  min 10 score5

/-- `preflopHandScore(cardA, cardB)`: swap the two cards so the first has
the higher rank index, then apply the simplified Chen formula. -/
def preflopHandScore (a b : Code) : ℚ :=
  if orderIndexOf a.r < orderIndexOf b.r then chenBody b.r a.r b.s a.s
  else chenBody a.r b.r a.s b.s

section

attribute [local semireducible] Rat.mul Rat.add Rat.inv Rat.sub Rat.ofScientific

example : preflopHandScore ⟨'A', 'C'⟩ ⟨'A', 'D'⟩ = 10 := by decide
example : preflopHandScore ⟨'7', 'C'⟩ ⟨'5', 'C'⟩ = 55/10 := by decide

end

/- ===========================
   Board context inside chooseBotAction
=========================== -/

/-- The post-flop board-context block of `chooseBotAction` (`topPair`,
`overPair`, `drawChance`, `textureRisk`), guarded on at least 3 community
cards; otherwise all flags stay at their neutral initial values. -/
structure BoardInfo where
  topPair : Bool
  overPair : Bool
  drawChance : Bool
  textureRisk : ℚ
deriving DecidableEq, Repr

/-- The flags of the `if (!preflop && communityCards.length >= 3)` block. -/
def boardContextInfo (env : Env) (h0 h1 : Code) (community : List Code) :
    BoardInfo :=
  if (!community.isEmpty) = true ∧ 3 ≤ community.length then
    let hc := analyzeHandContext env h0 h1 community
    let draws := analyzeDrawPotential [h0, h1] community
    { topPair := hc.1, overPair := hc.2,
      drawChance := draws.flushDraw || draws.straightDraw,
      textureRisk := evaluateBoardTexture community }
  else ⟨false, false, false, 0⟩

/- ===========================
   Position computation inside chooseBotAction
=========================== -/

/-- `players.findIndex(pred)`: first matching index, −1 when none. -/
def findIdxZ (pred : Player → Bool) (players : List Player) : ℤ :=
  match players.findIdx? pred with
  | some i => (i : ℤ)
  | none => -1

/-- `nextActive(startIdx)`: the first non-folded seat strictly after
`startIdx` (scanning `(startIdx + i) % players.length` for `i = 1 …
players.length`), falling back to `startIdx` itself.  The embedding
returns the seat's index rather than the seat (JavaScript returns the
object; seats are identified by index here). -/
def nextActiveIdx (players : List Player) (start : ℤ) : ℤ :=
  let n := players.length
  match (List.range' 1 n).find?
      (fun i => !(players.getD (((start + i) % (n : ℤ)).toNat) default).folded) with
  | some i => (start + i) % (n : ℤ)
  | none => start

/-- `active.indexOf(players[j])` for the non-folded sub-list: the seat's
position among the non-folded seats before it, −1 when the seat is folded
or `j` is out of range (JavaScript `indexOf` of an absent element).
Seats are assumed distinct objects, as at a real table. -/
def activeIndexOf (players : List Player) (j : ℤ) : ℤ :=
  if 0 ≤ j ∧ j.toNat < players.length then
    if (players.getD j.toNat default).folded then -1
    else (((players.take j.toNat).filter (fun p => !p.folded)).length : ℤ)
  else -1

/- ===========================
   The derived per-decision signals of chooseBotAction
=========================== -/

/-- All values `chooseBotAction` derives from `(player, ctx)` before its
branching: the embedding of the source's local constants and of the
mutated `aggressiveness` / `raiseThreshold` / `bluffChance` after the
board-context and opponent-model adjustment blocks. -/
structure Globals where
  preflop : Bool
  strength : ℚ
  strengthRatio : ℚ
  spr : ℚ
  potOdds : JNum
  stackRatio : JNum
  aggressiveness : ℚ
  raiseThreshold : ℚ
  bluffChance : ℚ
  canRaise : Bool
  facingAllIn : Bool
  currentBet : ℚ
  lastRaise : ℚ
  needToCall : ℚ
  chips : ℚ
  pot : ℚ
  big : ℚ
  textureRisk : ℚ
  positionFactor : ℚ
  activeOpponents : ℚ
deriving Repr

/-- The top half of `chooseBotAction`: all derived signals. -/
def mkGlobals (env : Env) (ctx : Ctx) (meIdx : ℕ) : Globals :=
  let players := ctx.players
  let player := players.getD meIdx default
  let needToCall := ctx.currentBet - player.roundBet
  let potOdds := jdiv needToCall (ctx.pot + needToCall)
  let stackRatio := jdiv needToCall player.chips
  let spr := player.chips / max 1 (ctx.pot + needToCall)
  let canRaise := decide (ctx.raisesThisRound < MAX_RAISES_PER_ROUND) &&
    decide (player.chips > ctx.bigBlind)
  let active := players.filter (fun p => !p.folded)
  let activeOpponents : ℚ := (active.length : ℚ) - 1
  let seatIdx := activeIndexOf players (meIdx : ℤ)
  let firstToActIdx :=
    if ctx.currentPhaseIndex = 0 then nextActiveIdx players (findIdxZ (·.bigBlind) players)
    else nextActiveIdx players (findIdxZ (·.dealer) players)
  let refIdx := activeIndexOf players firstToActIdx
  let activeLen : ℤ := active.length
  let pos := (seatIdx - refIdx + activeLen) % activeLen
  let positionFactor : ℚ := if 1 < activeLen then (pos : ℚ) / ((activeLen : ℚ) - 1) else 0
  let community := ctx.community
  let preflop := community.isEmpty
  let strength :=
    if preflop then preflopHandScore player.card0 player.card1
    else env.solveRank ([player.card0, player.card1] ++ community)
  let info := boardContextInfo env player.card0 player.card1 community
  let textureRisk := info.textureRisk
  let strengthRatio := strength / 10
  let oppAggAdj :=
    if activeOpponents < OPPONENT_THRESHOLD then (OPPONENT_THRESHOLD - activeOpponents) * AGG_FACTOR
    else 0
  let thresholdAdj :=
    if activeOpponents < OPPONENT_THRESHOLD then (OPPONENT_THRESHOLD - activeOpponents) * THRESHOLD_FACTOR
    else 0
  let agg0 := (if preflop then 8/10 + 4/10 * positionFactor else 1 + 6/10 * positionFactor) + oppAggAdj
  let rt0 := if preflop then 8 - 2 * positionFactor else max 2 (4 - 2 * positionFactor)
  let rt1 := max 1 (rt0 - thresholdAdj)
  let ctxAdj :=
    if preflop then (agg0, rt1)
    else
      let a2r2 :=
        if info.overPair then (agg0 + 2/10, rt1 - 5/10)
        else if info.topPair then (agg0 + 1/10, rt1 - 3/10)
        else (agg0, rt1)
      let a3r3 :=
        if info.drawChance then (a2r2.1 + 5/100, a2r2.2 - 25/100) else a2r2
      (a3r3.1 * (1 - textureRisk * (5/10)), min 10 (a3r3.2 + textureRisk))
  let opponents := (ctx.players.enum.filter (fun q => q.1 ≠ meIdx)).map (·.2)
  let facingAllIn := opponents.any (·.allIn)
  let oppAdj :=
    if 0 < opponents.length then
      let avgVPIP := (opponents.map (fun p => (p.stats.vpip + 1) / (p.stats.hands + 2))).sum /
        (opponents.length : ℚ)
      let avgAgg := (opponents.map (fun p => (p.stats.aggressiveActs + 1) / (p.stats.calls + 1))).sum /
        (opponents.length : ℚ)
      let foldRate := avgFoldRate opponents
      let avgHands := (opponents.map (fun p => p.stats.hands)).sum / (opponents.length : ℚ)
      let weight :=
        if avgHands < MIN_HANDS_FOR_WEIGHT then 0
        else 1 - env.exp (-(avgHands - MIN_HANDS_FOR_WEIGHT) / WEIGHT_GROWTH)
      let bc0 := min (3/10) foldRate * weight
      let bc1 := bc0 * (1 - textureRisk * (5/10))
      let rtAgg :=
        if avgVPIP < 25/100 then (ctxAdj.2 - 5/10 * weight, ctxAdj.1 + 1/10 * weight)
        else if avgVPIP > 5/10 then (ctxAdj.2 + 5/10 * weight, ctxAdj.1 - 1/10 * weight)
        else (ctxAdj.2, ctxAdj.1)
      let agg3 :=
        if avgAgg > 15/10 then rtAgg.2 - 1/10 * weight
        else if avgAgg < 7/10 then rtAgg.2 + 1/10 * weight
        else rtAgg.2
      (bc1, rtAgg.1, agg3)
    else (0, ctxAdj.2, ctxAdj.1)
  { preflop := preflop, strength := strength, strengthRatio := strengthRatio,
    spr := spr, potOdds := potOdds, stackRatio := stackRatio,
    aggressiveness := oppAdj.2.2, raiseThreshold := oppAdj.2.1,
    bluffChance := oppAdj.1, canRaise := canRaise, facingAllIn := facingAllIn,
    currentBet := ctx.currentBet, lastRaise := ctx.lastRaise,
    needToCall := needToCall, chips := player.chips, pot := ctx.pot,
    big := ctx.bigBlind, textureRisk := textureRisk,
    positionFactor := positionFactor, activeOpponents := activeOpponents }

/- ===========================
   Bet sizing (bot.js); `r` is the one Math.random() draw of the call
=========================== -/

/-- `valueBetSize()`. -/
def valueBetSize (g : Globals) (r : ℚ) : ℚ :=
  let base0 : ℚ :=
    if g.preflop then
      let b1 : ℚ := 55/100
      let b2 := if g.strengthRatio ≥ 9/10 then b1 + 15/100 else b1
      let b3 := b2 + g.activeOpponents * (4/100)
      let b4 := b3 + (1 - g.positionFactor) * (5/100)
      if g.positionFactor < 3/10 ∧ g.strengthRatio ≥ 8/10 then b4 + 1/10 else b4
    else
      let b1 : ℚ :=
        if g.textureRisk > 6/10 then 7/10 else if g.textureRisk > 3/10 then 6/10 else 45/100
      let b2 := if g.strengthRatio > 95/100 then b1 + 1/10 else b1
      let b3 := b2 + g.activeOpponents * (3/100)
      b3 + (1 - g.positionFactor) * (5/100)
  let base :=
    if g.spr < 2 then base0 + 1/10
    else if g.spr < 4 then base0 + 5/100
    else if g.spr > 6 then base0 - 5/100
    else base0
  let rand := r * (2/10) - 1/10
  let factor := min 1 (max (35/100) (base + rand))
  roundTo10 (min g.chips ((g.pot + g.needToCall) * factor))

/-- `bluffBetSize()`. -/
def bluffBetSize (g : Globals) (r : ℚ) : ℚ :=
  let b1 : ℚ := 25/100 + g.textureRisk * (5/100)
  let b2 := b1 + g.activeOpponents * (2/100)
  let b3 := b2 + (1 - g.positionFactor) * (3/100)
  let base :=
    if g.spr < 3 then b3 + 5/100
    else if g.spr > 5 then b3 - 5/100
    else b3
  let rand := r * (8/100) - 4/100
  let factor := min (45/100) (max (2/10) (base + rand))
  roundTo10 (min g.chips ((g.pot + g.needToCall) * factor))

/-- `protectionBetSize()`. -/
def protectionBetSize (g : Globals) (r : ℚ) : ℚ :=
  let b1 : ℚ := 45/100 + g.textureRisk * (25/100)
  let b2 := b1 + g.activeOpponents * (3/100)
  let b3 := b2 + (1 - g.positionFactor) * (4/100)
  let base :=
    if g.spr < 3 then b3 + 1/10
    else if g.spr > 5 then b3 - 5/100
    else b3
  let rand := r * (1/10) - 5/100
  let factor := min (8/10) (max (35/100) (base + rand))
  roundTo10 (min g.chips ((g.pot + g.needToCall) * factor))

/-- `overBetSize()`. -/
def overBetSize (g : Globals) (r : ℚ) : ℚ :=
  let b1 : ℚ := 12/10 - g.textureRisk * (1/10)
  let b2 := b1 + g.activeOpponents * (5/100)
  let base := if g.spr < 2 then b2 + 3/10 else b2
  let rand := r * (15/100) - 5/100
  let factor := max (11/10) (min (15/10) (base + rand))
  roundTo10 (min g.chips ((g.pot + g.needToCall) * factor))

/- ===========================
   Decision logic (bot.js), staged exactly as the source's blocks.
   Each stage takes the decision so far and the index of the next
   Math.random() draw, and returns both updated.
=========================== -/

/-- The shove rules and the four-way branch of `chooseBotAction` (the
`let decision; if … if (!decision) { … }` block). -/
def baseDecision (env : Env) (g : Globals) : Decision × ℕ :=
  if g.spr ≤ 12/10 ∧ g.strengthRatio ≥ 65/100 then (.raise g.chips, 0)
  else if g.preflop = true ∧ g.chips ≤ g.big * 10 ∧ g.strengthRatio ≥ 75/100 then
    (.raise g.chips, 0)
  else if g.needToCall ≤ 0 then
    if g.canRaise = true ∧ g.strength ≥ g.raiseThreshold then
      let raiseAmt := valueBetSize g (env.rand 0)
      let raiseAmt2 := max (g.currentBet + g.lastRaise) raiseAmt
      if |g.strength - g.raiseThreshold| ≤ STRENGTH_TIE_DELTA then
        (if env.rand 1 < 1/2 then .check else .raise raiseAmt2, 2)
      else (.raise raiseAmt2, 1)
    else (.check, 0)
  else if g.canRaise = true ∧ g.strength ≥ g.raiseThreshold ∧ jleq g.stackRatio (1/3) then
    let raiseAmt := protectionBetSize g (env.rand 0)
    let raiseAmt2 := max (g.currentBet + g.lastRaise) raiseAmt
    if |g.strength - g.raiseThreshold| ≤ STRENGTH_TIE_DELTA then
      let callAmt := min g.chips g.needToCall
      let alt :=
        if jgeq (g.strengthRatio * g.aggressiveness) g.potOdds ∧
            jleq g.stackRatio (if g.preflop then 1/2 else 7/10) then
          Decision.call callAmt
        else Decision.fold
      (if env.rand 1 < 1/2 then .raise raiseAmt2 else alt, 2)
    else (.raise raiseAmt2, 1)
  else if jgeq (g.strengthRatio * g.aggressiveness) g.potOdds ∧
      jleq g.stackRatio (if g.preflop then 1/2 else 7/10) then
    let callAmt := min g.chips g.needToCall
    if jabsSubLe (g.strengthRatio * g.aggressiveness) g.potOdds ODDS_TIE_DELTA then
      (if env.rand 0 < 1/2 then .call callAmt else .fold, 1)
    else (.call callAmt, 0)
  else (.fold, 0)

/-- The "do not always fold into an all-in" override. -/
def allInOverride (g : Globals) (d : Decision) : Decision :=
  if d = .fold ∧ g.facingAllIn = true then
    if g.strengthRatio ≥ (if g.preflop then ALLIN_HAND_PREFLOP else ALLIN_HAND_POSTFLOP) then
      .call (min g.chips g.needToCall)
    else d
  else d

/-- The bluff-injection block. -/
def bluffOverride (env : Env) (g : Globals) (d : Decision) (k : ℕ) : Decision × ℕ :=
  if g.bluffChance > 0 ∧ g.canRaise = true ∧ (d = .check ∨ d = .fold) ∧
      g.facingAllIn = false then
    if env.rand k < g.bluffChance then
      (.raise (max (g.currentBet + g.lastRaise) (bluffBetSize g (env.rand (k + 1)))), k + 2)
    else (d, k + 1)
  else (d, k)

/-- The occasional overbet upsizing of a near-nut low-SPR raise. -/
def overbetOverride (env : Env) (g : Globals) (d : Decision) (k : ℕ) : Decision × ℕ :=
  match d with
  | .raise a =>
    if g.preflop = false ∧ g.strengthRatio ≥ 95/100 ∧ g.spr ≤ 2 then
      if env.rand k < 3/10 then (.raise (max a (overBetSize g (env.rand (k + 1)))), k + 2)
      else (.raise a, k + 1)
    else (.raise a, k)
  | _ => (d, k)

/-- The deliberate slow-play downgrade of a near-nut postflop raise. -/
def slowPlayOverride (env : Env) (g : Globals) (d : Decision) (k : ℕ) : Decision × ℕ :=
  match d with
  | .raise a =>
    if g.preflop = false ∧ g.strengthRatio ≥ 9/10 then
      if env.rand k < 3/10 then (.check, k + 1) else (.raise a, k + 1)
    else (.raise a, k)
  | _ => (d, k)

/-- The occasional postflop "protect" bet when checking with no bet to call. -/
def protectOverride (env : Env) (g : Globals) (d : Decision) (k : ℕ) : Decision × ℕ :=
  if g.preflop = false ∧ g.currentBet = 0 ∧ d = .check then
    if env.rand k < 3/10 then
      (.raise (max g.lastRaise (protectionBetSize g (env.rand (k + 1)))), k + 2)
    else (d, k + 1)
  else (d, k)

/-- The final hard invariant: a raise below `needToCall + lastRaise` is
downgraded to a call (or a check when nothing is owed). -/
def clampMinRaise (g : Globals) (d : Decision) : Decision :=
  match d with
  | .raise a =>
    if a < g.needToCall + g.lastRaise then
      if g.needToCall > 0 then .call (min g.chips g.needToCall) else .check
    else .raise a
  | _ => d

/-- `chooseBotAction(player, ctx)`: the acting player is `ctx.players[meIdx]`.
The stages run in source order; the debug-logging block (guarded by the
constant-false `DEBUG_DECISIONS`) is omitted. -/
def chooseBotAction (env : Env) (ctx : Ctx) (meIdx : ℕ) : Decision :=
  let g := mkGlobals env ctx meIdx
  let b0 := baseDecision env g
  let d1 := allInOverride g b0.1
  let b2 := bluffOverride env g d1 b0.2
  let b3 := overbetOverride env g b2.1 b2.2
  let b4 := slowPlayOverride env g b3.1 b3.2
  let b5 := protectOverride env g b4.1 b4.2
  clampMinRaise g b5.1

/- ===========================
   Action queue management (bot.js)
=========================== -/

/-- The scheduler's module state: the queue (`botActionQueue`), the
`processingBotActions` flag, and the absolute fire time of the single
outstanding `setTimeout`, if any. -/
structure Sched (α : Type) where
  queue : List α
  processing : Bool
  timerAt : Option ℕ
deriving DecidableEq, Repr

/-- `enqueueBotAction(fn)` at wall-clock time `now`: push the callback;
when idle, raise the flag and schedule `processBotQueue` after
`BOT_ACTION_DELAY`. -/
def enqueueBotAction (s : Sched α) (now : ℕ) (fn : α) : Sched α :=
  { queue := s.queue ++ [fn],
    processing := true,
    timerAt := if s.processing then s.timerAt else some (now + BOT_ACTION_DELAY) }

/-- One firing of `processBotQueue` at time `now`: returns the callback
executed (if any) and the new state; a non-empty remainder schedules the
next firing after `BOT_ACTION_DELAY`, an empty one clears the flag. -/
def processBotQueue (s : Sched α) (now : ℕ) : Option α × Sched α :=
  match s.queue with
  | [] => (none, { s with processing := false, timerAt := none })
  | f :: rest =>
    (some f,
      { queue := rest,
        processing := if rest.isEmpty then false else s.processing,
        timerAt := if rest.isEmpty then none else some (now + BOT_ACTION_DELAY) })

/-- A helper for `runSched`'s termination: a firing that executes a
callback shortens the queue. -/
theorem processBotQueue_some_len {α : Type} {s : Sched α} {t : ℕ} {f : α}
    {s2 : Sched α} (h : processBotQueue s t = (some f, s2)) :
    s2.queue.length < s.queue.length := by
  unfold processBotQueue at h
  cases hq : s.queue with
  | nil => rw [hq] at h; simp at h
  | cons a l =>
    rw [hq] at h
    simp only [Prod.mk.injEq, Option.some.injEq] at h
    rw [← h.2]
    simp

/-- Drive the scheduler to quiescence: fire the outstanding timer, record
the executed callback and its time, repeat.  Returns the execution trace
and the final state. -/
def runSched (s : Sched α) : List (ℕ × α) × Sched α :=
  match s.timerAt with
  | none => ([], s)
  | some t =>
    match hq : processBotQueue s t with
    | (none, s2) => ([], s2)
    | (some f, s2) =>
      let r := runSched s2
      ((t, f) :: r.1, r.2)
termination_by s.queue.length
decreasing_by exact processBotQueue_some_len hq

/-- All callbacks enqueued at time `t0` starting from the idle module state. -/
def enqueueAll (t0 : ℕ) (fns : List α) : Sched α :=
  fns.foldl (fun s f => enqueueBotAction s t0 f) ⟨[], false, none⟩

/-- The expected trace of a drain whose first execution is at time `t`:
one callback per firing, consecutive firings exactly `BOT_ACTION_DELAY`
apart, in queue order. -/
def drainFrom (t : ℕ) : List α → List (ℕ × α)
  | [] => []
  | f :: r => (t, f) :: drainFrom (t + BOT_ACTION_DELAY) r

/- ===========================
   Concrete decision scenarios (used by witnesses and counterexamples)
=========================== -/

/-- All-zero session stats. -/
def stats0 : Stats := ⟨0, 0, 0, 0, 0⟩

/-- A generic non-acting seat: big stack, dealer button. -/
def villain : Player :=
  { chips := 1000, roundBet := 0, folded := false, allIn := false, dealer := true,
    bigBlind := false, card0 := ⟨'2', 'H'⟩, card1 := ⟨'3', 'S'⟩, stats := stats0 }

/-- Oracle for scenario A: first random 1/2 (sizing jitter 0), second 3/4
(tie-break resolves to raise); the hand is preflop so the evaluator is unused. -/
def envA : Env := ⟨fun n => if n = 0 then 1/2 else 3/4, fun _ => 0, fun _ => 0,
  fun _ => "", fun _ => 0⟩

/-- Scenario A acting seat: a 15-chip big blind holding 7♣5♣. -/
def heroA : Player :=
  { chips := 15, roundBet := 0, folded := false, allIn := false, dealer := false,
    bigBlind := true, card0 := ⟨'7', 'C'⟩, card1 := ⟨'5', 'C'⟩, stats := stats0 }

/-- Scenario A: preflop, nothing to call, pot 30, blinds 5/10, last raise 20.
`chooseBotAction` value-raises: the sizing caps at the 15-chip stack and
then rounds 15 up to 20. -/
def ctxA : Ctx :=
  { currentBet := 0, pot := 30, smallBlind := 5, bigBlind := 10, lastRaise := 20,
    raisesThisRound := 0, currentPhaseIndex := 0, players := [villain, heroA],
    community := [] }

/-- Oracle for scenario B (every random 1/2; preflop, evaluator unused). -/
def envB : Env := ⟨fun _ => 1/2, fun _ => 0, fun _ => 0, fun _ => "", fun _ => 0⟩

/-- Scenario B acting seat: a 150-chip big blind holding A♣A♦. -/
def heroB : Player := { heroA with chips := 150, card0 := ⟨'A', 'C'⟩, card1 := ⟨'A', 'D'⟩ }

/-- Scenario B: preflop, pot 100, blinds 10/20, and the raise cap already
reached (`raisesThisRound = 3`); the short-stack shove rule still fires. -/
def ctxB : Ctx :=
  { currentBet := 0, pot := 100, smallBlind := 10, bigBlind := 20, lastRaise := 20,
    raisesThisRound := 3, currentPhaseIndex := 0, players := [villain, heroB],
    community := [] }

/-- Oracle for scenario C: rank-9 resolved hand (strength ratio 0.9), hand
category not "Pair"; first random 1/2 (sizing jitter 0), second 1/10 (the
slow-play coin comes up under 0.3). -/
def envC : Env := ⟨fun n => if n = 0 then 1/2 else 1/10, fun _ => 0, fun _ => 9,
  fun _ => "X", fun _ => 0⟩

/-- Scenario C non-acting seat: the dealer, having bet 50 this round. -/
def villainC : Player := { villain with roundBet := 50 }

/-- Scenario C acting seat: 1000 chips, 9♥5♥. -/
def heroC : Player :=
  { chips := 1000, roundBet := 0, folded := false, allIn := false, dealer := false,
    bigBlind := true, card0 := ⟨'9', 'H'⟩, card1 := ⟨'5', 'H'⟩, stats := stats0 }

/-- Scenario C: postflop on a dry 2♣7♦K♠ board facing a 50-chip bet
(`needToCall = 50`); the protection raise is chosen, then the slow-play
override downgrades it to a check. -/
def ctxC : Ctx :=
  { currentBet := 50, pot := 100, smallBlind := 10, bigBlind := 20, lastRaise := 20,
    raisesThisRound := 0, currentPhaseIndex := 1, players := [villainC, heroC],
    community := [⟨'2', 'C'⟩, ⟨'7', 'D'⟩, ⟨'K', 'S'⟩] }

/-- Oracle for scenario D: rank-9 resolved hand; every random 1/10 (the
slow-play coin comes up under 0.3). -/
def envD : Env := ⟨fun _ => 1/10, fun _ => 0, fun _ => 9, fun _ => "X", fun _ => 0⟩

/-- Scenario D acting seat: scenario C's hero with zero chips. -/
def heroD : Player := { heroC with chips := 0 }

/-- Scenario D: scenario C with a zero-chip acting player: the degenerate
all-in raise of 0 chips is chosen by the shove rule, then slow-played
into a check. -/
def ctxD : Ctx := { ctxC with players := [villainC, heroD] }

/-- Oracle for scenario E (every random 1/2, rank-9 resolved hand). -/
def envE : Env := ⟨fun _ => 1/2, fun _ => 0, fun _ => 9, fun _ => "X", fun _ => 0⟩

/-- Scenario E: scenario C with the raise cap reached, so the engine calls
the 50-chip bet on pot odds. -/
def ctxE : Ctx := { ctxC with raisesThisRound := 3 }

/-- Scenario F acting seat: 150 chips, A♣A♦, big blind. -/
def heroF : Player := heroB

/-- Scenario F: preflop with blinds 100/200, so the 150-chip hero has
`chips ≤ bigBlind` (`canRaise` is false); the short-stack shove still raises. -/
def ctxF : Ctx :=
  { currentBet := 0, pot := 100, smallBlind := 100, bigBlind := 200, lastRaise := 20,
    raisesThisRound := 0, currentPhaseIndex := 0, players := [villain, heroF],
    community := [] }

/-- The shallow-stack shove rule of the decision engine. -/
def shoveRule1 (g : Globals) : Prop := g.spr ≤ 12/10 ∧ g.strengthRatio ≥ 65/100

/-- The preflop short-stack shove rule of the decision engine. -/
def shoveRule2 (g : Globals) : Prop :=
  g.preflop = true ∧ g.chips ≤ g.big * 10 ∧ g.strengthRatio ≥ 75/100

/-- The situation in which the postflop protect-bet override can fire. -/
def protectWindow (g : Globals) : Prop := g.preflop = false ∧ g.currentBet = 0

/- ===========================
   Theorems
=========================== -/

section Theorems

attribute [local semireducible] Rat.mul Rat.add Rat.inv Rat.sub Rat.ofScientific

/-- Enqueuing onto a busy scheduler only appends: the flag stays raised and
the outstanding timer is untouched. -/
theorem foldl_enqueue_busy {α : Type} (t0 : ℕ) :
    ∀ (r : List α) (s : Sched α), s.processing = true →
      r.foldl (fun s f => enqueueBotAction s t0 f) s =
        ⟨s.queue ++ r, true, s.timerAt⟩ := by
  intro r
  induction r with
  | nil =>
    intro s hs
    cases s
    simp_all
  | cons f rest ih =>
    intro s hs
    rw [List.foldl_cons]
    have he : enqueueBotAction s t0 f = ⟨s.queue ++ [f], true, s.timerAt⟩ := by
      unfold enqueueBotAction
      rw [hs]
      simp
    rw [he, ih ⟨s.queue ++ [f], true, s.timerAt⟩ rfl]
    simp

/-- A state with a pending timer drains completely: one callback per firing,
consecutive firings exactly `BOT_ACTION_DELAY` apart, in queue order,
ending idle with an empty queue and no timer. -/
theorem runSched_some {α : Type} :
    ∀ (q : List α) (b : Bool) (t : ℕ),
      runSched ⟨q, b, some t⟩ = (drainFrom t q, ⟨[], false, none⟩) := by
  intro q
  induction q with
  | nil =>
    intro b t
    unfold runSched processBotQueue
    simp [drainFrom]
  | cons f rest ih =>
    intro b t
    unfold runSched processBotQueue
    by_cases hre : rest.isEmpty
    · have hrn : rest = [] := List.isEmpty_iff.mp hre
      subst hrn
      simp [runSched, drainFrom]
    · have hni : rest.isEmpty = false := by simpa using hre
      simp only [hni, if_false]
      simp [ih, drainFrom]

/-- C9: for every sequence of callbacks enqueued (at time `t0`, from the
idle state), the scheduler holds exactly that sequence, executes the
callbacks one per timer firing in enqueue order — the first execution
`BOT_ACTION_DELAY` after the enqueue and each next one `BOT_ACTION_DELAY`
after the previous — and finishes idle with an empty queue and no pending
timer; a subsequent enqueue onto the idle scheduler starts a fresh timer. -/
theorem scheduler_fifo_order {α : Type} (fns : List α) (t0 : ℕ) :
    (enqueueAll t0 fns).queue = fns ∧
    runSched (enqueueAll t0 fns) =
      (drainFrom (t0 + BOT_ACTION_DELAY) fns, ⟨[], false, none⟩) ∧
    ∀ (s : Sched α) (t : ℕ) (f : α), s.processing = false →
      (enqueueBotAction s t f).timerAt = some (t + BOT_ACTION_DELAY) := by
  have henq : ∀ (s : Sched α) (t : ℕ) (f : α), s.processing = false →
      (enqueueBotAction s t f).timerAt = some (t + BOT_ACTION_DELAY) := by
    intro s t f hs
    unfold enqueueBotAction
    rw [hs]
    simp
  cases fns with
  | nil =>
    refine ⟨rfl, ?_, henq⟩
    unfold enqueueAll runSched
    simp [drainFrom]
  | cons f rest =>
    have h1 : enqueueAll t0 (f :: rest) =
        ⟨f :: rest, true, some (t0 + BOT_ACTION_DELAY)⟩ := by
      unfold enqueueAll
      rw [List.foldl_cons]
      have he : enqueueBotAction (⟨[], false, none⟩ : Sched α) t0 f =
          ⟨[f], true, some (t0 + BOT_ACTION_DELAY)⟩ := by
        unfold enqueueBotAction
        simp
      rw [he, foldl_enqueue_busy t0 rest _ rfl]
      simp
    refine ⟨by rw [h1], ?_, henq⟩
    rw [h1, runSched_some]

/-- Witness for C9: three enqueued actions run in FIFO order at times 1500,
3000, 4500, the scheduler ends idle, and an enqueue onto the idle state at
time 7 arms a timer for time 1507. -/
theorem scheduler_fifo_order_witness :
    runSched (enqueueAll 0 [10, 20, 30]) =
      ([(1500, 10), (3000, 20), (4500, 30)], (⟨[], false, none⟩ : Sched ℕ)) ∧
    (enqueueBotAction (⟨[], false, none⟩ : Sched ℕ) 7 99).timerAt = some 1507 :=
  ⟨by
    rw [(scheduler_fifo_order [10, 20, 30] 0).2.1]
    simp [drainFrom, BOT_ACTION_DELAY],
   (scheduler_fifo_order ([] : List ℕ) 0).2.2 ⟨[], false, none⟩ 7 99 rfl⟩

/-- Field computations of `mkGlobals` used in claim statements. -/
theorem mkGlobals_needToCall (env : Env) (ctx : Ctx) (meIdx : ℕ) :
    (mkGlobals env ctx meIdx).needToCall =
      ctx.currentBet - (ctx.players.getD meIdx default).roundBet := rfl

theorem mkGlobals_lastRaise (env : Env) (ctx : Ctx) (meIdx : ℕ) :
    (mkGlobals env ctx meIdx).lastRaise = ctx.lastRaise := rfl

theorem mkGlobals_chips (env : Env) (ctx : Ctx) (meIdx : ℕ) :
    (mkGlobals env ctx meIdx).chips = (ctx.players.getD meIdx default).chips := rfl

theorem mkGlobals_canRaise (env : Env) (ctx : Ctx) (meIdx : ℕ) :
    (mkGlobals env ctx meIdx).canRaise =
      (decide (ctx.raisesThisRound < MAX_RAISES_PER_ROUND) &&
        decide ((ctx.players.getD meIdx default).chips > ctx.bigBlind)) := rfl

theorem mkGlobals_stackRatio (env : Env) (ctx : Ctx) (meIdx : ℕ) :
    (mkGlobals env ctx meIdx).stackRatio =
      jdiv (ctx.currentBet - (ctx.players.getD meIdx default).roundBet)
        (ctx.players.getD meIdx default).chips := rfl

theorem mkGlobals_currentBet (env : Env) (ctx : Ctx) (meIdx : ℕ) :
    (mkGlobals env ctx meIdx).currentBet = ctx.currentBet := rfl

theorem mkGlobals_big (env : Env) (ctx : Ctx) (meIdx : ℕ) :
    (mkGlobals env ctx meIdx).big = ctx.bigBlind := rfl

theorem mkGlobals_pot (env : Env) (ctx : Ctx) (meIdx : ℕ) :
    (mkGlobals env ctx meIdx).pot = ctx.pot := rfl

/-- A decision surviving the final clamp as a raise entered the clamp as
the same raise, and its amount is at least the legal minimum. -/
theorem clampMinRaise_raise {g : Globals} {d : Decision} {a : ℚ}
    (h : clampMinRaise g d = .raise a) :
    d = .raise a ∧ g.needToCall + g.lastRaise ≤ a := by
  unfold clampMinRaise at h
  cases d with
  | fold => simp at h
  | check => simp at h
  | call c => simp at h
  | raise b =>
    dsimp only at h
    by_cases hb : b < g.needToCall + g.lastRaise
    · rw [if_pos hb] at h
      split at h <;> simp at h
    · rw [if_neg hb] at h
      injection h with hba
      subst hba
      exact ⟨rfl, not_lt.mp hb⟩

/-- The clamp turns a raise into a call of exactly `min chips needToCall`,
and passes everything else through. -/
theorem clampMinRaise_call {g : Globals} {d : Decision} {a : ℚ}
    (h : clampMinRaise g d = .call a) :
    d = .call a ∨ a = min g.chips g.needToCall := by
  unfold clampMinRaise at h
  cases d with
  | fold => simp at h
  | check => simp at h
  | call c => exact Or.inl h
  | raise b =>
    dsimp only at h
    split at h
    · split at h
      · injection h with hh; exact Or.inr hh.symm
      · simp at h
    · simp at h

/-- The all-in defence override can only produce a call; a raise passes
through unchanged. -/
theorem allInOverride_raise {g : Globals} {d : Decision} {a : ℚ}
    (h : allInOverride g d = .raise a) : d = .raise a := by
  unfold allInOverride at h
  split at h
  · split at h <;> split at h <;> first | simp at h | exact h
  · exact h

/-- The all-in defence override's calls are stack-capped or inherited. -/
theorem allInOverride_call {g : Globals} {d : Decision} {a : ℚ}
    (h : allInOverride g d = .call a) :
    d = .call a ∨ a = min g.chips g.needToCall := by
  unfold allInOverride at h
  split at h
  · split at h <;> split at h <;>
      first
        | (injection h with hh; exact Or.inr hh.symm)
        | exact Or.inl h
  · exact Or.inl h

/-- Bluff injection produces a raise only when `canRaise` holds. -/
theorem bluffOverride_fst_raise {env : Env} {g : Globals} {d : Decision}
    {k : ℕ} {a : ℚ} (h : (bluffOverride env g d k).1 = .raise a) :
    (∃ b, d = .raise b) ∨ g.canRaise = true := by
  unfold bluffOverride at h
  split at h
  · next hc => exact Or.inr hc.2.1
  · exact Or.inl ⟨a, h⟩

/-- Bluff injection never produces a call. -/
theorem bluffOverride_fst_call {env : Env} {g : Globals} {d : Decision}
    {k : ℕ} {a : ℚ} (h : (bluffOverride env g d k).1 = .call a) :
    d = .call a := by
  unfold bluffOverride at h
  split at h
  · split at h
    · simp at h
    · exact h
  · exact h

/-- Overbet upsizing only modifies an already-chosen raise. -/
theorem overbetOverride_fst_raise {env : Env} {g : Globals} {d : Decision}
    {k : ℕ} {a : ℚ} (h : (overbetOverride env g d k).1 = .raise a) :
    ∃ b, d = .raise b := by
  unfold overbetOverride at h
  cases d with
  | fold => simp at h
  | check => simp at h
  | call c => simp at h
  | raise b => exact ⟨b, rfl⟩

/-- Overbet upsizing never produces a call. -/
theorem overbetOverride_fst_call {env : Env} {g : Globals} {d : Decision}
    {k : ℕ} {a : ℚ} (h : (overbetOverride env g d k).1 = .call a) :
    d = .call a := by
  unfold overbetOverride at h
  cases d with
  | fold => exact h
  | check => exact h
  | call c => exact h
  | raise b =>
    dsimp only at h
    split at h
    · split at h <;> simp at h
    · simp at h

/-- The slow-play downgrade only maps a raise to a check or keeps it. -/
theorem slowPlayOverride_fst_raise {env : Env} {g : Globals} {d : Decision}
    {k : ℕ} {a : ℚ} (h : (slowPlayOverride env g d k).1 = .raise a) :
    ∃ b, d = .raise b := by
  unfold slowPlayOverride at h
  cases d with
  | fold => simp at h
  | check => simp at h
  | call c => simp at h
  | raise b => exact ⟨b, rfl⟩

/-- The slow-play downgrade never produces a call. -/
theorem slowPlayOverride_fst_call {env : Env} {g : Globals} {d : Decision}
    {k : ℕ} {a : ℚ} (h : (slowPlayOverride env g d k).1 = .call a) :
    d = .call a := by
  unfold slowPlayOverride at h
  cases d with
  | fold => exact h
  | check => exact h
  | call c => exact h
  | raise b =>
    dsimp only at h
    split at h
    · split at h <;> simp at h
    · simp at h

/-- The protect-bet override produces a raise only postflop with no
outstanding bet. -/
theorem protectOverride_fst_raise {env : Env} {g : Globals} {d : Decision}
    {k : ℕ} {a : ℚ} (h : (protectOverride env g d k).1 = .raise a) :
    (∃ b, d = .raise b) ∨ protectWindow g := by
  unfold protectOverride at h
  split at h
  · next hc => exact Or.inr ⟨hc.1, hc.2.1⟩
  · exact Or.inl ⟨a, h⟩

/-- The protect-bet override never produces a call. -/
theorem protectOverride_fst_call {env : Env} {g : Globals} {d : Decision}
    {k : ℕ} {a : ℚ} (h : (protectOverride env g d k).1 = .call a) :
    d = .call a := by
  unfold protectOverride at h
  split at h
  · split at h
    · simp at h
    · exact h
  · exact h

/-- The core branch logic raises only via a shove rule or with `canRaise`. -/
theorem baseDecision_fst_raise {env : Env} {g : Globals} {a : ℚ}
    (h : (baseDecision env g).1 = .raise a) :
    shoveRule1 g ∨ shoveRule2 g ∨ g.canRaise = true := by
  by_cases hs1 : shoveRule1 g
  · exact Or.inl hs1
  by_cases hs2 : shoveRule2 g
  · exact Or.inr (Or.inl hs2)
  by_cases hcr : g.canRaise = true
  · exact Or.inr (Or.inr hcr)
  exfalso
  unfold baseDecision at h
  rw [if_neg (show ¬(g.spr ≤ 12/10 ∧ g.strengthRatio ≥ 65/100) from hs1),
    if_neg (show ¬(g.preflop = true ∧ g.chips ≤ g.big * 10 ∧ g.strengthRatio ≥ 75/100) from hs2)]
    at h
  by_cases h3 : g.needToCall ≤ 0
  · rw [if_pos h3, if_neg (fun hc => hcr hc.1)] at h
    simp at h
  · rw [if_neg h3, if_neg (fun hc => hcr hc.1)] at h
    repeat' split at h
    all_goals simp at h

/-- Every call amount of the core branch logic is `min chips needToCall`. -/
theorem baseDecision_fst_call {env : Env} {g : Globals} {a : ℚ}
    (h : (baseDecision env g).1 = .call a) :
    a = min g.chips g.needToCall := by
  unfold baseDecision at h
  repeat' split at h
  all_goals (try dsimp only at h)
  all_goals first
    | (injection h with hh; exact hh.symm)
    | simp at h

/-- C1: `chooseBotAction` never returns a raise below the legal minimum:
whenever it returns `{action: raise, amount}`, the amount is at least
`needToCall + lastRaise` (with `needToCall = currentBet − player.roundBet`
for the acting player) — the final clamp runs after every probabilistic
override, so no returned raise is ever below the legal minimum. -/
theorem chooseBotAction_min_raise (env : Env) (ctx : Ctx) (meIdx : ℕ) (amt : ℚ)
    (h : chooseBotAction env ctx meIdx = .raise amt) :
    ctx.currentBet - (ctx.players.getD meIdx default).roundBet + ctx.lastRaise ≤ amt := by
  simp only [chooseBotAction] at h
  have h2 := (clampMinRaise_raise h).2
  rw [mkGlobals_needToCall, mkGlobals_lastRaise] at h2
  exact h2

/-- Witness for C1: in scenario A the returned raise of 20 meets the legal
minimum `needToCall + lastRaise = 0 + 20`. -/
theorem chooseBotAction_min_raise_witness :
    ctxA.currentBet - (ctxA.players.getD 1 default).roundBet + ctxA.lastRaise ≤ 20 :=
  chooseBotAction_min_raise envA ctxA 1 20 (by decide)

/-- Any raise returned by `chooseBotAction` originates in a shove rule, a
`canRaise`-gated branch, or the postflop protect-bet override. -/
theorem raise_provenance {env : Env} {ctx : Ctx} {meIdx : ℕ} {amt : ℚ}
    (h : chooseBotAction env ctx meIdx = .raise amt) :
    shoveRule1 (mkGlobals env ctx meIdx) ∨ shoveRule2 (mkGlobals env ctx meIdx) ∨
      (mkGlobals env ctx meIdx).canRaise = true ∨
      protectWindow (mkGlobals env ctx meIdx) := by
  simp only [chooseBotAction] at h
  have h5 := (clampMinRaise_raise h).1
  rcases protectOverride_fst_raise h5 with ⟨b4, h4⟩ | hw
  · obtain ⟨b3, h3⟩ := slowPlayOverride_fst_raise h4
    obtain ⟨b2, h2⟩ := overbetOverride_fst_raise h3
    rcases bluffOverride_fst_raise h2 with ⟨b1, h1⟩ | hcr
    · have h0 := allInOverride_raise h1
      rcases baseDecision_fst_raise h0 with hs | hs | hs
      · exact Or.inl hs
      · exact Or.inr (Or.inl hs)
      · exact Or.inr (Or.inr (Or.inl hs))
    · exact Or.inr (Or.inr (Or.inl hcr))
  · exact Or.inr (Or.inr (Or.inr hw))

/-- Any call returned by `chooseBotAction` has amount
`min chips needToCall`. -/
theorem call_amount_shape {env : Env} {ctx : Ctx} {meIdx : ℕ} {amt : ℚ}
    (h : chooseBotAction env ctx meIdx = .call amt) :
    amt = min (mkGlobals env ctx meIdx).chips (mkGlobals env ctx meIdx).needToCall := by
  simp only [chooseBotAction] at h
  rcases clampMinRaise_call h with h5 | hmin
  · have h4 := protectOverride_fst_call h5
    have h3 := slowPlayOverride_fst_call h4
    have h2 := overbetOverride_fst_call h3
    have h1 := bluffOverride_fst_call h2
    rcases allInOverride_call h1 with h0 | hmin
    · exact baseDecision_fst_call h0
    · exact hmin
  · exact hmin

/-- Counterexample to C2: in scenario A the engine returns a raise of 20
while the acting player holds only 15 chips — the value sizing caps at the
stack *before* rounding to the nearest 10, so the rounding can exceed the
stack. -/
theorem raise_amount_exceeds_chips_cex :
    chooseBotAction envA ctxA 1 = .raise 20 ∧
    (ctxA.players.getD 1 default).chips = 15 ∧ ¬((20 : ℚ) ≤ 15) := by
  refine ⟨by decide, by decide, by decide⟩

/-- C2 as amended: every `call` returned by `chooseBotAction` is capped at
the acting player's stack (every call constructed is
`min chips needToCall`); raise amounts, by contrast, can exceed the stack
(see the counterexample). -/
theorem call_amount_le_chips (env : Env) (ctx : Ctx) (meIdx : ℕ) (amt : ℚ)
    (h : chooseBotAction env ctx meIdx = .call amt) :
    amt ≤ (ctx.players.getD meIdx default).chips := by
  have h2 := call_amount_shape h
  rw [mkGlobals_chips] at h2
  rw [h2]
  exact min_le_left _ _

/-- Witness for the amended C2: in scenario E the engine calls 50 with a
1000-chip stack. -/
theorem call_amount_le_chips_witness : (50 : ℚ) ≤ (ctxE.players.getD 1 default).chips :=
  call_amount_le_chips envE ctxE 1 50 (by decide)

/-- Counterexample to C3: in scenario B `raisesThisRound` already equals
`MAX_RAISES_PER_ROUND = 3`, yet the engine returns a raise (the preflop
short-stack shove rule does not consult the raise cap). -/
theorem raise_cap_bypassed_cex :
    chooseBotAction envB ctxB 1 = .raise 150 ∧
    ctxB.raisesThisRound = MAX_RAISES_PER_ROUND :=
  ⟨by decide, rfl⟩

/-- C3 as amended: with the raise cap reached (`raisesThisRound ≥
MAX_RAISES_PER_ROUND`), no raise can come from the threshold branches or
bluff injection (all gated by `canRaise`); a returned raise can only stem
from one of the two shove rules or from the postflop protect-bet override
(postflop with `currentBet = 0`), which bypass the cap. -/
theorem raise_beyond_cap_only_shove_or_protect (env : Env) (ctx : Ctx)
    (meIdx : ℕ) (amt : ℚ) (hcap : MAX_RAISES_PER_ROUND ≤ ctx.raisesThisRound)
    (h : chooseBotAction env ctx meIdx = .raise amt) :
    shoveRule1 (mkGlobals env ctx meIdx) ∨ shoveRule2 (mkGlobals env ctx meIdx) ∨
      protectWindow (mkGlobals env ctx meIdx) := by
  rcases raise_provenance h with hs | hs | hs | hs
  · exact Or.inl hs
  · exact Or.inr (Or.inl hs)
  · rw [mkGlobals_canRaise] at hs
    simp only [Bool.and_eq_true, decide_eq_true_eq] at hs
    omega
  · exact Or.inr (Or.inr hs)

/-- Witness for the amended C3: in scenario B the cap is reached and the
returned raise indeed satisfies a shove rule. -/
theorem raise_beyond_cap_only_shove_or_protect_witness :
    shoveRule1 (mkGlobals envB ctxB 1) ∨ shoveRule2 (mkGlobals envB ctxB 1) ∨
      protectWindow (mkGlobals envB ctxB 1) :=
  raise_beyond_cap_only_shove_or_protect envB ctxB 1 150 (by decide) (by decide)

/-- C10: a player whose stack does not exceed the big blind has `canRaise`
false, so `chooseBotAction` cannot raise through the no-bet value branch,
the facing-a-bet protection branch, or bluff injection: any raise it
returns satisfies a shove rule or the postflop protect-bet window. -/
theorem short_stack_raise_only_shove_or_protect (env : Env) (ctx : Ctx)
    (meIdx : ℕ) (amt : ℚ)
    (hchips : (ctx.players.getD meIdx default).chips ≤ ctx.bigBlind)
    (h : chooseBotAction env ctx meIdx = .raise amt) :
    shoveRule1 (mkGlobals env ctx meIdx) ∨ shoveRule2 (mkGlobals env ctx meIdx) ∨
      protectWindow (mkGlobals env ctx meIdx) := by
  rcases raise_provenance h with hs | hs | hs | hs
  · exact Or.inl hs
  · exact Or.inr (Or.inl hs)
  · rw [mkGlobals_canRaise] at hs
    simp only [Bool.and_eq_true, decide_eq_true_eq] at hs
    exact absurd hs.2 (not_lt.mpr hchips)
  · exact Or.inr (Or.inr hs)

/-- Witness for C10: in scenario F the 150-chip hero faces a 200-chip big
blind and the returned all-in raise satisfies the preflop shove rule. -/
theorem short_stack_raise_only_shove_or_protect_witness :
    shoveRule1 (mkGlobals envB ctxF 1) ∨ shoveRule2 (mkGlobals envB ctxF 1) ∨
      protectWindow (mkGlobals envB ctxF 1) :=
  short_stack_raise_only_shove_or_protect envB ctxF 1 150 (by decide) (by decide)

/-- C4 failing input: in scenario C the engine faces `needToCall = 50 > 0`,
internally chooses the protection raise, and the slow-play downgrade — which
never checks whether a bet is outstanding — turns it into an illegal check. -/
theorem slow_play_checks_facing_bet :
    chooseBotAction envC ctxC 1 = .check ∧
    ctxC.currentBet - (ctxC.players.getD 1 default).roundBet = 50 ∧ (0 : ℚ) < 50 := by
  refine ⟨by decide, by decide, by decide⟩

/-- C5 failing input: holding 2♣3♦ on the 4♥5♠6♣ board the made straight
2-3-4-5-6 is on hand (the 5-rank window starting at 2 is fully present),
yet `analyzeDrawPotential` reports `straightDraw = true`: the window scan
breaks at the first window with four present ranks — here the ace-low
window starting at 1 — before ever reaching the fully-present window. -/
theorem straight_draw_despite_made_straight :
    analyzeDrawPotential [⟨'2', 'C'⟩, ⟨'3', 'D'⟩] [⟨'4', 'H'⟩, ⟨'5', 'S'⟩, ⟨'6', 'C'⟩] =
      ⟨false, true, 0⟩ ∧
    windowHits (sortNat ((([⟨'2', 'C'⟩, ⟨'3', 'D'⟩, ⟨'4', 'H'⟩, ⟨'5', 'S'⟩,
      ⟨'6', 'C'⟩] : List Code).map codeRank).dedup)) 2 = 5 := by
  refine ⟨by decide, by decide⟩

/-- Counterexample to C6: with zero chips and `needToCall = 50 > 0` the
engine is not special-cased to fold or all-in: in scenario D it returns a
(rules-invalid) check, via the slow-play downgrade of the degenerate
zero-chip shove. -/
theorem zero_chips_check_cex :
    chooseBotAction envD ctxD 1 = .check ∧
    (ctxD.players.getD 1 default).chips = 0 ∧
    ctxD.currentBet - (ctxD.players.getD 1 default).roundBet = 50 := by
  refine ⟨by decide, by decide, by decide⟩

/-- Additional `mkGlobals` field computations for the zero-chip analysis. -/
theorem mkGlobals_stackRatio_posInf (env : Env) (ctx : Ctx) (meIdx : ℕ)
    (hch : (ctx.players.getD meIdx default).chips = 0)
    (hntc : 0 < ctx.currentBet - (ctx.players.getD meIdx default).roundBet) :
    (mkGlobals env ctx meIdx).stackRatio = .posInf := by
  rw [mkGlobals_stackRatio, hch]
  unfold jdiv
  rw [if_pos rfl, if_pos hntc]

theorem mkGlobals_canRaise_false_of_zero (env : Env) (ctx : Ctx) (meIdx : ℕ)
    (hch : (ctx.players.getD meIdx default).chips = 0) (hbig : 0 ≤ ctx.bigBlind) :
    (mkGlobals env ctx meIdx).canRaise = false := by
  rw [mkGlobals_canRaise]
  simp only [Bool.and_eq_false_iff, decide_eq_false_iff_not, not_lt]
  right
  rw [hch]
  exact hbig

/-- With nothing owed impossible, no raise right, and an infinite stack
ratio, the core branch logic shoves or folds. -/
theorem baseDecision_degenerate (env : Env) {g : Globals}
    (hcr : g.canRaise = false) (hntc : ¬g.needToCall ≤ 0)
    (hsr : g.stackRatio = .posInf) :
    (baseDecision env g).1 = .raise g.chips ∨ (baseDecision env g).1 = .fold := by
  unfold baseDecision
  by_cases c1 : g.spr ≤ 12/10 ∧ g.strengthRatio ≥ 65/100
  · rw [if_pos c1]; exact Or.inl rfl
  rw [if_neg c1]
  by_cases c2 : g.preflop = true ∧ g.chips ≤ g.big * 10 ∧ g.strengthRatio ≥ 75/100
  · rw [if_pos c2]; exact Or.inl rfl
  rw [if_neg c2, if_neg hntc,
    if_neg (fun hc => by rw [hcr] at hc; exact absurd hc.1 (by simp)),
    if_neg (fun hc => by rw [hsr] at hc; exact hc.2)]
  exact Or.inr rfl

/-- The all-in override keeps a raise. -/
theorem allInOverride_raise_eq {g : Globals} {a : ℚ} :
    allInOverride g (.raise a) = .raise a := by
  unfold allInOverride
  rw [if_neg (fun hc => by simpa using hc.1)]

/-- The all-in override maps a fold to a fold or a stack-capped call. -/
theorem allInOverride_fold_cases (g : Globals) :
    allInOverride g .fold = .fold ∨
    allInOverride g .fold = .call (min g.chips g.needToCall) := by
  unfold allInOverride
  split
  · split <;> split <;> first | exact Or.inr rfl | exact Or.inl rfl
  · exact Or.inl rfl

/-- Bluff injection is disabled whenever `canRaise` is false. -/
theorem bluffOverride_skip {env : Env} {g : Globals} {d : Decision} {k : ℕ}
    (hcr : g.canRaise = false) : bluffOverride env g d k = (d, k) := by
  unfold bluffOverride
  rw [if_neg (fun hc => by rw [hcr] at hc; exact absurd hc.2.1 (by simp))]

/-- A zero-chip stack makes every sizing zero: the cap at the stack happens
before the rounding. -/
theorem overBetSize_zero {g : Globals} {r : ℚ} (hch : g.chips = 0)
    (hp : 0 < g.pot + g.needToCall) : overBetSize g r = 0 := by
  have hfac : ∀ x : ℚ, (0 : ℚ) < max (11/10) x := fun x =>
    lt_of_lt_of_le (by norm_num) (le_max_left _ _)
  simp only [overBetSize, hch]
  rw [min_eq_left (mul_pos hp (hfac _)).le]
  simp only [roundTo10, jround]
  norm_num

/-- The overbet override keeps a degenerate zero raise at zero. -/
theorem overbetOverride_raise_zero {env : Env} {g : Globals} {k : ℕ}
    (hch : g.chips = 0) (hp : 0 < g.pot + g.needToCall) :
    (overbetOverride env g (.raise 0) k).1 = .raise 0 := by
  simp only [overbetOverride]
  split
  · split
    · simp [overBetSize_zero hch hp]
    · rfl
  · rfl

/-- The slow-play override maps a raise to itself or to a check. -/
theorem slowPlayOverride_raise_cases {env : Env} {g : Globals} {a : ℚ} {k : ℕ} :
    (slowPlayOverride env g (.raise a) k).1 = .raise a ∨
    (slowPlayOverride env g (.raise a) k).1 = .check := by
  simp only [slowPlayOverride]
  split
  · split
    · exact Or.inr rfl
    · exact Or.inl rfl
  · exact Or.inl rfl

/-- The protect-bet override is disabled while a bet is outstanding. -/
theorem protectOverride_skip {env : Env} {g : Globals} {d : Decision} {k : ℕ}
    (hcb : ¬g.currentBet = 0) : protectOverride env g d k = (d, k) := by
  unfold protectOverride
  rw [if_neg (fun hc => hcb hc.2.1)]

/-- The clamp downgrades the degenerate zero raise of a zero-chip player
facing a bet into a call of zero. -/
theorem clampMinRaise_zero_raise {g : Globals} (hntc : 0 < g.needToCall)
    (hch : g.chips = 0) (hlr : 0 ≤ g.lastRaise) :
    clampMinRaise g (.raise 0) = .call 0 := by
  unfold clampMinRaise
  dsimp only
  rw [if_pos (by linarith), if_pos hntc, hch, min_eq_left hntc.le]

/-- C6 as amended: the engine does not special-case a zero-chip player
facing a bet; instead the infinite JavaScript stack ratio makes every
stack-ratio guard false, so the returned action is a fold, an all-in call
of the whole (zero) remaining stack, or — postflop, via the slow-play
downgrade of the degenerate zero-chip shove — a check; no other call or
raise is ever returned. -/
theorem zero_chips_outcomes (env : Env) (ctx : Ctx) (meIdx : ℕ)
    (hch : (ctx.players.getD meIdx default).chips = 0)
    (hntc : 0 < ctx.currentBet - (ctx.players.getD meIdx default).roundBet)
    (hrb : 0 ≤ (ctx.players.getD meIdx default).roundBet)
    (hlr : 0 ≤ ctx.lastRaise) (hbig : 0 ≤ ctx.bigBlind) (hpot : 0 ≤ ctx.pot) :
    chooseBotAction env ctx meIdx = .fold ∨
    chooseBotAction env ctx meIdx = .call 0 ∨
    chooseBotAction env ctx meIdx = .check := by
  have hgch : (mkGlobals env ctx meIdx).chips = 0 := by
    rw [mkGlobals_chips]; exact hch
  have hgntc : 0 < (mkGlobals env ctx meIdx).needToCall := by
    rw [mkGlobals_needToCall]; exact hntc
  have hgcr := mkGlobals_canRaise_false_of_zero env ctx meIdx hch hbig
  have hgsr := mkGlobals_stackRatio_posInf env ctx meIdx hch hntc
  have hglr : 0 ≤ (mkGlobals env ctx meIdx).lastRaise := by
    rw [mkGlobals_lastRaise]; exact hlr
  have hgcb : ¬(mkGlobals env ctx meIdx).currentBet = 0 := by
    rw [mkGlobals_currentBet]
    have hcb : 0 < ctx.currentBet := by linarith
    exact ne_of_gt hcb
  have hgpp : 0 < (mkGlobals env ctx meIdx).pot + (mkGlobals env ctx meIdx).needToCall := by
    rw [mkGlobals_pot, mkGlobals_needToCall]
    linarith
  have hmin0 : min (mkGlobals env ctx meIdx).chips (mkGlobals env ctx meIdx).needToCall = 0 := by
    rw [hgch]
    exact min_eq_left hgntc.le
  simp only [chooseBotAction]
  rcases baseDecision_degenerate env hgcr (not_le.mpr hgntc) hgsr with hb | hb
  · simp only [hb, hgch, allInOverride_raise_eq, bluffOverride_skip hgcr,
      overbetOverride_raise_zero hgch hgpp, slowPlayOverride]
    split
    · split
      · simp only [protectOverride_skip hgcb]
        exact Or.inr (Or.inr rfl)
      · simp only [protectOverride_skip hgcb]
        exact Or.inr (Or.inl (clampMinRaise_zero_raise hgntc hgch hglr))
    · simp only [protectOverride_skip hgcb]
      exact Or.inr (Or.inl (clampMinRaise_zero_raise hgntc hgch hglr))
  · rcases allInOverride_fold_cases (mkGlobals env ctx meIdx) with ha | ha
    · simp only [hb, ha, bluffOverride_skip hgcr, protectOverride_skip hgcb]
      exact Or.inl rfl
    · simp only [hb, ha, hmin0, bluffOverride_skip hgcr, protectOverride_skip hgcb]
      exact Or.inr (Or.inl rfl)

/-- Witness for the amended C6: scenario D (zero chips facing a 50-chip
bet) indeed resolves to one of fold, zero call, or check. -/
theorem zero_chips_outcomes_witness :
    chooseBotAction envD ctxD 1 = .fold ∨ chooseBotAction envD ctxD 1 = .call 0 ∨
    chooseBotAction envD ctxD 1 = .check :=
  zero_chips_outcomes envD ctxD 1 (by decide) (by decide) (by decide) (by decide)
    (by decide) (by decide)

/-- `order.indexOf` distinguishes distinct valid rank characters. -/
theorem orderIndexOf_inj (c d : Char) (hc : validRankChar c) (hd : validRankChar d)
    (h : orderIndexOf c = orderIndexOf d) : c = d := by
  unfold validRankChar at hc hd
  fin_cases hc <;> fin_cases hd <;> revert h <;> decide

/-- For a pocket pair the Chen body depends on the suits only through
their equality, which is symmetric. -/
theorem chenBody_suit_comm (r s1 s2 : Char) :
    chenBody r r s1 s2 = chenBody r r s2 s1 := by
  by_cases hs : s1 = s2
  · subst hs
    rfl
  · have hs2 : ¬s2 = s1 := fun hh => hs hh.symm
    simp only [chenBody, if_neg hs, if_neg hs2]

/-- C7: preflop scoring is a pure function of the two hole cards and is
order-independent: swapping the two input cards yields an identical score. -/
theorem preflopHandScore_symm (a b : Code) (ha : validRankChar a.r)
    (hb : validRankChar b.r) : preflopHandScore a b = preflopHandScore b a := by
  unfold preflopHandScore
  rcases lt_trichotomy (orderIndexOf a.r) (orderIndexOf b.r) with h | h | h
  · rw [if_pos h, if_neg (not_lt.mpr h.le)]
  · have hc : a.r = b.r := orderIndexOf_inj _ _ ha hb h
    rw [if_neg (by omega), if_neg (by omega), hc]
    exact chenBody_suit_comm b.r a.s b.s
  · rw [if_neg (not_lt.mpr h.le), if_pos h]

/-- Witness for C7: A♣ and K♦ score identically in either order. -/
theorem preflopHandScore_symm_witness :
    preflopHandScore ⟨'A', 'C'⟩ ⟨'K', 'D'⟩ = preflopHandScore ⟨'K', 'D'⟩ ⟨'A', 'C'⟩ :=
  preflopHandScore_symm ⟨'A', 'C'⟩ ⟨'K', 'D'⟩ (by decide) (by decide)

/-- Upper bound for folded maxima. -/
theorem foldr_max_le {l : List ℕ} {n : ℕ} (h : ∀ x ∈ l, x ≤ n) :
    l.foldr max 0 ≤ n := by
  induction l with
  | nil => exact Nat.zero_le n
  | cons x xs ih =>
    simp only [List.foldr_cons]
    exact max_le (h x (List.mem_cons_self x xs))
      (ih fun y hy => h y (List.mem_cons_of_mem x hy))

/-- Every member bounds the folded maximum from below. -/
theorem le_foldr_max {l : List ℕ} {x : ℕ} (h : x ∈ l) : x ≤ l.foldr max 0 := by
  induction l with
  | nil => cases h
  | cons y ys ih =>
    simp only [List.foldr_cons]
    rcases List.mem_cons.mp h with rfl | hy
    · exact le_max_left _ _
    · exact le_trans (ih hy) (le_max_right _ _)

/-- Every per-rank count is at most the board size. -/
theorem boardRankCounts_le (board : List Code) :
    ∀ x ∈ boardRankCounts board, x ≤ board.length := by
  intro x hx
  obtain ⟨rc, _, rfl⟩ := List.mem_map.mp hx
  exact List.length_filter_le _ board

/-- Every per-suit count is at most the board size. -/
theorem boardSuitCounts_le (board : List Code) :
    ∀ x ∈ boardSuitCounts board, x ≤ board.length := by
  intro x hx
  obtain ⟨sc, _, rfl⟩ := List.mem_map.mp hx
  exact List.length_filter_le _ board

/-- Every per-suit count counts at least the occurrence that put the suit
into the key list. -/
theorem boardSuitCounts_pos (board : List Code) :
    ∀ x ∈ boardSuitCounts board, 1 ≤ x := by
  intro x hx
  obtain ⟨sc, hsc, rfl⟩ := List.mem_map.mp hx
  obtain ⟨c, hc, hcs⟩ := List.mem_map.mp (List.mem_dedup.mp hsc)
  have : c ∈ board.filter (fun c => c.s = sc) :=
    List.mem_filter.mpr ⟨hc, by simp [hcs]⟩
  exact List.length_pos.mpr (List.ne_nil_of_mem this)

/-- A non-empty board has a non-empty suit-count list. -/
theorem boardSuitCounts_ne_nil {board : List Code} (h : board ≠ []) :
    boardSuitCounts board ≠ [] := by
  unfold boardSuitCounts
  simp only [ne_eq, List.map_eq_nil, List.dedup_eq_nil, List.map_eq_nil]
  exact h

/-- The pairing sub-score lies in `[0, 1]` on boards of 3 or more cards. -/
theorem boardPairRisk_bounds (board : List Code) (h3 : 3 ≤ board.length) :
    0 ≤ boardPairRisk board ∧ boardPairRisk board ≤ 1 := by
  simp only [boardPairRisk]
  have hlen : (3 : ℚ) ≤ (board.length : ℚ) := by exact_mod_cast h3
  have hden : (0 : ℚ) < (board.length : ℚ) - 1 := by linarith
  split
  · next hM =>
    have hMn : (boardRankCounts board).foldr max 0 ≤ board.length :=
      foldr_max_le (boardRankCounts_le board)
    have hMq : ((((boardRankCounts board).foldr max 0 : ℕ)) : ℚ) ≤ (board.length : ℚ) := by
      exact_mod_cast hMn
    have hM1 : (1 : ℚ) ≤ ((((boardRankCounts board).foldr max 0 : ℕ)) : ℚ) := by
      exact_mod_cast Nat.one_le_of_lt hM
    constructor
    · exact div_nonneg (by linarith) hden.le
    · rw [div_le_one hden]
      linarith
  · exact ⟨le_refl 0, by norm_num⟩

/-- The suitedness sub-score lies in `[0, 1]` on boards of 3 or more cards. -/
theorem boardSuitRisk_bounds (board : List Code) (h3 : 3 ≤ board.length) :
    0 ≤ boardSuitRisk board ∧ boardSuitRisk board ≤ 1 := by
  simp only [boardSuitRisk]
  have hlen : (3 : ℚ) ≤ (board.length : ℚ) := by exact_mod_cast h3
  have hden : (0 : ℚ) < (board.length : ℚ) - 1 := by linarith
  have hne : board ≠ [] := by
    intro hb
    rw [hb] at h3
    simp at h3
  obtain ⟨y, hy⟩ := List.exists_mem_of_ne_nil _ (boardSuitCounts_ne_nil hne)
  have hM1 : 1 ≤ (boardSuitCounts board).foldr max 0 :=
    le_trans (boardSuitCounts_pos board y hy) (le_foldr_max hy)
  have hMn : (boardSuitCounts board).foldr max 0 ≤ board.length :=
    foldr_max_le (boardSuitCounts_le board)
  have hM1q : (1 : ℚ) ≤ ((((boardSuitCounts board).foldr max 0 : ℕ)) : ℚ) := by
    exact_mod_cast hM1
  have hMq : ((((boardSuitCounts board).foldr max 0 : ℕ)) : ℚ) ≤ (board.length : ℚ) := by
    exact_mod_cast hMn
  constructor
  · exact div_nonneg (by linarith) hden.le
  · rw [div_le_one hden]
    linarith

/-- Invariant of the run scan: both the current run and the best run seen
so far are witnessed by intervals of members of `L`; the result is too. -/
theorem maxConsecutiveAux_interval (L : List ℕ) :
    ∀ (l : List ℕ) (prev cur best a c : ℕ),
      (∀ x ∈ l, x ∈ L) → (∀ i < cur, a + i ∈ L) → prev + 1 = a + cur →
      (∀ i < best, c + i ∈ L) →
      ∃ e, ∀ i < maxConsecutiveAux prev cur best l, e + i ∈ L := by
  intro l
  induction l with
  | nil =>
    intro prev cur best a c _ _ _ hbest
    exact ⟨c, fun i hi => hbest i hi⟩
  | cons x xs ih =>
    intro prev cur best a c hmem hwin hprev hbest
    simp only [maxConsecutiveAux]
    by_cases hx : x = prev + 1
    · rw [if_pos hx]
      have hwin2 : ∀ i < cur + 1, a + i ∈ L := by
        intro i hi
        rcases Nat.lt_succ_iff_lt_or_eq.mp hi with hi2 | heq
        · exact hwin i hi2
        · have hax : a + i = x := by omega
          rw [hax]
          exact hmem x (List.mem_cons_self x xs)
      have hmem2 : ∀ y ∈ xs, y ∈ L := fun y hy => hmem y (List.mem_cons_of_mem x hy)
      rcases le_total best (cur + 1) with hbc | hbc
      · have hmax : max best (cur + 1) = cur + 1 := max_eq_right hbc
        rw [hmax]
        exact ih x (cur + 1) (cur + 1) a a hmem2 hwin2 (by omega) hwin2
      · have hmax : max best (cur + 1) = best := max_eq_left hbc
        rw [hmax]
        exact ih x (cur + 1) best a c hmem2 hwin2 (by omega) hbest
    · rw [if_neg hx]
      have hwin1 : ∀ i < 1, x + i ∈ L := by
        intro i hi
        interval_cases i
        simpa using hmem x (List.mem_cons_self x xs)
      have hmem2 : ∀ y ∈ xs, y ∈ L := fun y hy => hmem y (List.mem_cons_of_mem x hy)
      rcases le_total best 1 with hbc | hbc
      · have hmax : max best 1 = 1 := max_eq_right hbc
        rw [hmax]
        exact ih x 1 1 x x hmem2 hwin1 (by omega) hwin1
      · have hmax : max best 1 = best := max_eq_left hbc
        rw [hmax]
        exact ih x 1 best x c hmem2 hwin1 (by omega) hbest

/-- The longest consecutive run of a non-empty list is witnessed by an
interval of its members. -/
theorem maxConsecutive_interval (l : List ℕ) (h : l ≠ []) :
    ∃ e, ∀ i < maxConsecutive l, e + i ∈ l := by
  cases l with
  | nil => exact absurd rfl h
  | cons x xs =>
    unfold maxConsecutive
    have hwin : ∀ i < 1, x + i ∈ x :: xs := by
      intro i hi
      interval_cases i
      simp
    exact maxConsecutiveAux_interval (x :: xs) xs x 1 1 x x
      (fun y hy => List.mem_cons_of_mem x hy) hwin (by omega) hwin

/-- On a duplicate-free list the longest consecutive run cannot exceed the
length. -/
theorem maxConsecutive_le_length (l : List ℕ) (hnd : l.Nodup) (hne : l ≠ []) :
    maxConsecutive l ≤ l.length := by
  obtain ⟨e, he⟩ := maxConsecutive_interval l hne
  have hInd : ((List.range (maxConsecutive l)).map (e + ·)).Nodup :=
    List.Nodup.map (fun i j hij => by omega) (List.nodup_range _)
  have hsub : ((List.range (maxConsecutive l)).map (e + ·)).toFinset ⊆ l.toFinset := by
    intro y hy
    rw [List.mem_toFinset] at hy
    obtain ⟨i, hi, rfl⟩ := List.mem_map.mp hy
    rw [List.mem_toFinset]
    exact he i (List.mem_range.mp hi)
  have hcard := Finset.card_le_card hsub
  rw [List.toFinset_card_of_nodup hInd, List.toFinset_card_of_nodup hnd] at hcard
  simpa using hcard

/-- A duplicate-free list containing both 1 and 14 whose longest run
reaches its whole length must have at least 14 members' worth of run. -/
theorem maxConsecutive_big (l : List ℕ) (hnd : l.Nodup) (hne : l ≠ [])
    (h1 : 1 ∈ l) (h14 : 14 ∈ l) (hbig : l.length ≤ maxConsecutive l) :
    14 ≤ maxConsecutive l := by
  obtain ⟨e, he⟩ := maxConsecutive_interval l hne
  have hInd : ((List.range (maxConsecutive l)).map (e + ·)).Nodup :=
    List.Nodup.map (fun i j hij => by omega) (List.nodup_range _)
  have hsub : ((List.range (maxConsecutive l)).map (e + ·)).toFinset ⊆ l.toFinset := by
    intro y hy
    rw [List.mem_toFinset] at hy
    obtain ⟨i, hi, rfl⟩ := List.mem_map.mp hy
    rw [List.mem_toFinset]
    exact he i (List.mem_range.mp hi)
  have hcards : l.toFinset.card ≤
      ((List.range (maxConsecutive l)).map (e + ·)).toFinset.card := by
    rw [List.toFinset_card_of_nodup hInd, List.toFinset_card_of_nodup hnd]
    simpa using hbig
  have heq := Finset.eq_of_subset_of_card_le hsub hcards
  have h1I : (1 : ℕ) ∈ (List.range (maxConsecutive l)).map (e + ·) := by
    rw [← List.mem_toFinset, heq, List.mem_toFinset]
    exact h1
  have h14I : (14 : ℕ) ∈ (List.range (maxConsecutive l)).map (e + ·) := by
    rw [← List.mem_toFinset, heq, List.mem_toFinset]
    exact h14
  obtain ⟨i, hi, hie⟩ := List.mem_map.mp h1I
  obtain ⟨j, hj, hje⟩ := List.mem_map.mp h14I
  rw [List.mem_range] at hi hj
  omega

/-- The connectedness sub-score lies in `[0, 1]` on boards of 3 to 5 cards:
the longest run cannot exceed the board size, because a run absorbing the
extra pushed ace-low rank 1 would have to stretch from 1 to 14. -/
theorem boardConnRisk_bounds (board : List Code) (h3 : 3 ≤ board.length)
    (h5 : board.length ≤ 5) : 0 ≤ boardConnRisk board ∧ boardConnRisk board ≤ 1 := by
  simp only [boardConnRisk]
  set ranks := board.map (fun c => rankMapChar c.r) with hranks
  set rFS := if ranks.contains 14 then ranks ++ [1] else ranks with hrFS
  set uniq := sortNat rFS.dedup with huniq
  set mc := maxConsecutive uniq with hmc
  have hperm : List.Perm uniq rFS.dedup := by
    rw [huniq, sortNat]
    exact List.perm_insertionSort _ _
  have hnd : uniq.Nodup := hperm.nodup_iff.mpr (List.nodup_dedup _)
  have hlen1 : uniq.length = rFS.dedup.length := hperm.length_eq
  have hlen2 : rFS.dedup.length ≤ rFS.length := (List.dedup_sublist _).length_le
  have hrl : ranks.length = board.length := by
    rw [hranks, List.length_map]
  have hkey : mc ≤ board.length := by
    by_contra hgt
    push_neg at hgt
    have hune : uniq ≠ [] := by
      intro hu
      have hmc1 : mc = 1 := by rw [hmc, hu]; rfl
      omega
    have hmcu : mc ≤ uniq.length := maxConsecutive_le_length uniq hnd hune
    by_cases h14 : ranks.contains 14
    · have hrFSl : rFS.length = board.length + 1 := by
        rw [hrFS, if_pos h14, List.length_append, hrl]
        rfl
      have h1mem : (1 : ℕ) ∈ uniq := by
        apply hperm.mem_iff.mpr
        rw [List.mem_dedup, hrFS, if_pos h14]
        exact List.mem_append_right _ (by simp)
      have h14mem : (14 : ℕ) ∈ uniq := by
        apply hperm.mem_iff.mpr
        rw [List.mem_dedup, hrFS, if_pos h14]
        exact List.mem_append_left _ (by simpa using h14)
      have hbig2 : uniq.length ≤ mc := by omega
      have h14le := maxConsecutive_big uniq hnd hune h1mem h14mem hbig2
      omega
    · have hrFSl : rFS.length = board.length := by
        rw [hrFS, if_neg h14]
        exact hrl
      omega
  split
  · constructor
    · exact le_max_left 0 _
    · apply max_le
      · norm_num
      · have hlen : (3 : ℚ) ≤ (board.length : ℚ) := by exact_mod_cast h3
        have hden : (0 : ℚ) < (board.length : ℚ) - 2 := by linarith
        rw [div_le_one hden]
        have hmcq : (mc : ℚ) ≤ (board.length : ℚ) := by exact_mod_cast hkey
        linarith
  · norm_num

/-- C8: a board of fewer than 3 cards short-circuits — the texture is 0 and
the decision engine's board-context block leaves all flags neutral — while
on a (real) board of 3 to 5 cards the texture risk is exactly the average
of the connectedness, suitedness and pairing sub-scores and lies in [0, 1]
(the final clamp never fires). -/
theorem evaluateBoardTexture_spec (env : Env) (h0 h1 : Code) (board : List Code)
    (h5 : board.length ≤ 5) :
    (board.length < 3 →
      evaluateBoardTexture board = 0 ∧
      boardContextInfo env h0 h1 board = ⟨false, false, false, 0⟩) ∧
    (3 ≤ board.length →
      evaluateBoardTexture board =
        (boardConnRisk board + boardSuitRisk board + boardPairRisk board) / 3 ∧
      0 ≤ evaluateBoardTexture board ∧ evaluateBoardTexture board ≤ 1) := by
  constructor
  · intro hlt
    constructor
    · unfold evaluateBoardTexture
      rw [if_pos hlt]
    · unfold boardContextInfo
      rw [if_neg (fun hc => absurd hc.2 (by omega))]
  · intro h3
    obtain ⟨hc0, hc1⟩ := boardConnRisk_bounds board h3 h5
    obtain ⟨hs0, hs1⟩ := boardSuitRisk_bounds board h3
    obtain ⟨hp0, hp1⟩ := boardPairRisk_bounds board h3
    have havg0 : 0 ≤ (boardConnRisk board + boardSuitRisk board + boardPairRisk board) / 3 :=
      div_nonneg (by linarith) (by norm_num)
    have havg1 : (boardConnRisk board + boardSuitRisk board + boardPairRisk board) / 3 ≤ 1 := by
      rw [div_le_one (by norm_num)]
      linarith
    have heq : evaluateBoardTexture board =
        (boardConnRisk board + boardSuitRisk board + boardPairRisk board) / 3 := by
      unfold evaluateBoardTexture
      rw [if_neg (not_lt.mpr h3), min_eq_right havg1, max_eq_right havg0]
    exact ⟨heq, heq ▸ havg0, heq ▸ havg1⟩

/-- Witness for C8: a 1-card board yields texture 0 and neutral flags; the
dry 3-card board 2♣7♦K♠ satisfies the average formula and the bounds. -/
theorem evaluateBoardTexture_spec_witness :
    (evaluateBoardTexture [⟨'2', 'C'⟩] = 0 ∧
      boardContextInfo envA ⟨'A', 'C'⟩ ⟨'K', 'D'⟩ [⟨'2', 'C'⟩] = ⟨false, false, false, 0⟩) ∧
    (evaluateBoardTexture [⟨'2', 'C'⟩, ⟨'7', 'D'⟩, ⟨'K', 'S'⟩] =
      (boardConnRisk [⟨'2', 'C'⟩, ⟨'7', 'D'⟩, ⟨'K', 'S'⟩] +
        boardSuitRisk [⟨'2', 'C'⟩, ⟨'7', 'D'⟩, ⟨'K', 'S'⟩] +
        boardPairRisk [⟨'2', 'C'⟩, ⟨'7', 'D'⟩, ⟨'K', 'S'⟩]) / 3 ∧
      0 ≤ evaluateBoardTexture [⟨'2', 'C'⟩, ⟨'7', 'D'⟩, ⟨'K', 'S'⟩] ∧
      evaluateBoardTexture [⟨'2', 'C'⟩, ⟨'7', 'D'⟩, ⟨'K', 'S'⟩] ≤ 1) :=
  ⟨(evaluateBoardTexture_spec envA ⟨'A', 'C'⟩ ⟨'K', 'D'⟩ [⟨'2', 'C'⟩]
      (by decide)).1 (by decide),
   (evaluateBoardTexture_spec envA ⟨'A', 'C'⟩ ⟨'K', 'D'⟩
      [⟨'2', 'C'⟩, ⟨'7', 'D'⟩, ⟨'K', 'S'⟩] (by decide)).2 (by decide)⟩

end Theorems
